import Mathlib

/-!
# Verification of the mccat multicast utility (src/main.rs)

A shallow embedding of the program's core: the multicast-address gate in
`run`, the three session loops (listen, send, ping), the payload framing
(PING / PONG markers), the i32 sequence counter, and the lossy UTF-8
decoding used when displaying or echoing payloads.

Payloads are byte lists (`List Nat` with values < 256 in practice).
Machine integers are modelled as `Nat`/`Int` with explicit reduction
modulo 2^32 where Rust's i32 wrapping matters.
-/

namespace Mccat

/-- Datagram payloads and other raw byte strings. -/
abbrev Bytes := List Nat

/-- Bytes of an ASCII string literal (`b"..."` / `.as_bytes()` on ASCII text). -/
def asciiBytes (s : String) : Bytes := s.data.map Char.toNat

/-- An IPv4 address as four octets, mirroring `std::net::Ipv4Addr`. -/
structure Ipv4Addr where
  o0 : Nat
  o1 : Nat
  o2 : Nat
  o3 : Nat
deriving DecidableEq

/-- An IPv6 address as eight 16-bit segments, mirroring `std::net::Ipv6Addr`. -/
structure Ipv6Addr where
  s0 : Nat
  s1 : Nat
  s2 : Nat
  s3 : Nat
  s4 : Nat
  s5 : Nat
  s6 : Nat
  s7 : Nat
deriving DecidableEq

/-- `std::net::IpAddr`. -/
inductive IpAddr where
  | V4 (a : Ipv4Addr)
  | V6 (a : Ipv6Addr)
deriving DecidableEq

/-- `Ipv4Addr::is_multicast`: first octet in 224..=239 (224.0.0.0/4). -/
def Ipv4Addr.is_multicast (a : Ipv4Addr) : Bool :=
  decide (224 ≤ a.o0 ∧ a.o0 ≤ 239)

/-- `Ipv6Addr::is_multicast`: `(segments()[0] & 0xff00) == 0xff00` (ff00::/8). -/
def Ipv6Addr.is_multicast (a : Ipv6Addr) : Bool :=
  (a.s0 &&& 0xff00) == 0xff00

/-- `IpAddr::is_multicast`, dispatching on the address family. -/
def IpAddr.is_multicast : IpAddr → Bool
  | .V4 a => a.is_multicast
  | .V6 a => a.is_multicast

/-- A remote endpoint (`std::net::SocketAddr`): address plus 16-bit port. -/
structure Endpoint where
  ip : IpAddr
  port : Nat
deriving DecidableEq

/-! ## Lossy UTF-8 decoding

`String::from_utf8_lossy` followed by re-encoding to bytes (which is what
`format!("PONG{}", String::from_utf8_lossy(seqnum)).as_bytes()` transmits,
and what `println!` writes to the terminal).  The byte classification and
the length of each invalid maximal subpart follow `core::str`'s UTF-8
validation: a rejected leading byte consumes one byte; a rejected
continuation byte consumes the valid sequence prefix before it; a
truncated sequence at end of input consumes the rest.  Every invalid
subpart is replaced by U+FFFD, whose UTF-8 encoding is EF BF BD. -/

/-- A UTF-8 continuation byte: 0x80..=0xBF. -/
def isCont (b : Nat) : Bool := decide (0x80 ≤ b ∧ b ≤ 0xBF)

/-- UTF-8 encoding of U+FFFD REPLACEMENT CHARACTER. -/
def replacementBytes : Bytes := [0xEF, 0xBF, 0xBD]

/-- Admissible second byte of a multi-byte sequence led by `b`
(the range restrictions ruling out overlong forms, surrogates and
values above U+10FFFF, as in `core::str`'s validation). -/
def utf8SecondOk (b c : Nat) : Bool :=
  if b = 0xE0 then decide (0xA0 ≤ c ∧ c ≤ 0xBF)
  else if b = 0xED then decide (0x80 ≤ c ∧ c ≤ 0x9F)
  else if b = 0xF0 then decide (0x90 ≤ c ∧ c ≤ 0xBF)
  else if b = 0xF4 then decide (0x80 ≤ c ∧ c ≤ 0x8F)
  else isCont c

/-- Outcome of consuming one UTF-8 sequence or one invalid maximal
subpart from `b :: rest`: whether the sequence was valid, the bytes the
lossy decoder emits for it, and the input remaining after it. -/
structure Utf8Step where
  valid : Bool
  emitted : Bytes
  remaining : Bytes
deriving DecidableEq

/-- One step of `core::str`'s UTF-8 validation on input `b :: rest`,
with the error lengths `from_utf8_lossy` uses: a rejected leading byte
consumes one byte, a rejected continuation byte consumes the valid
sequence prefix before it, and a sequence truncated by end of input
consumes the rest.  A valid sequence is emitted verbatim; an invalid
subpart is emitted as U+FFFD. -/
def utf8Step (b : Nat) (rest : Bytes) : Utf8Step :=
  if b ≤ 0x7F then ⟨true, [b], rest⟩
  else if 0xC2 ≤ b ∧ b ≤ 0xDF then
    match rest with
    | [] => ⟨false, replacementBytes, []⟩
    | c :: rest2 =>
      if isCont c then ⟨true, [b, c], rest2⟩
      else ⟨false, replacementBytes, c :: rest2⟩
  else if 0xE0 ≤ b ∧ b ≤ 0xEF then
    match rest with
    | [] => ⟨false, replacementBytes, []⟩
    | c :: rest2 =>
      if utf8SecondOk b c then
        match rest2 with
        | [] => ⟨false, replacementBytes, []⟩
        | d :: rest3 =>
          if isCont d then ⟨true, [b, c, d], rest3⟩
          else ⟨false, replacementBytes, d :: rest3⟩
      else ⟨false, replacementBytes, c :: rest2⟩
  else if 0xF0 ≤ b ∧ b ≤ 0xF4 then
    match rest with
    | [] => ⟨false, replacementBytes, []⟩
    | c :: rest2 =>
      if utf8SecondOk b c then
        match rest2 with
        | [] => ⟨false, replacementBytes, []⟩
        | d :: rest3 =>
          if isCont d then
            match rest3 with
            | [] => ⟨false, replacementBytes, []⟩
            | e :: rest4 =>
              if isCont e then ⟨true, [b, c, d, e], rest4⟩
              else ⟨false, replacementBytes, e :: rest4⟩
          else ⟨false, replacementBytes, d :: rest3⟩
      else ⟨false, replacementBytes, c :: rest2⟩
  else ⟨false, replacementBytes, rest⟩

/-- Iterate `utf8Step` over the input.  The fuel only bounds the
recursion; each step consumes at least one byte, so fuel equal to the
input length (as `utf8LossyBytes` passes) is never exhausted. -/
def utf8LossyGo : Nat → Bytes → Bytes
  | _, [] => []
  | 0, _ :: _ => []
  | fuel + 1, b :: rest =>
    let s := utf8Step b rest
    s.emitted ++ utf8LossyGo fuel s.remaining

/-- Re-encoded result of `String::from_utf8_lossy` on a byte string:
valid UTF-8 sequences are copied through, each invalid maximal subpart
becomes the three bytes of U+FFFD. -/
def utf8LossyBytes (l : Bytes) : Bytes := utf8LossyGo l.length l

/-- Iterated validity check (same stepping, fuel as above). -/
def isUtf8Go : Nat → Bytes → Bool
  | _, [] => true
  | 0, _ :: _ => false
  | fuel + 1, b :: rest =>
    let s := utf8Step b rest
    s.valid && isUtf8Go fuel s.remaining

/-- Validity test for UTF-8, mirroring `str::from_utf8(l).is_ok()`. -/
def isUtf8 (l : Bytes) : Bool := isUtf8Go l.length l

example : utf8LossyBytes (asciiBytes "hi 42") = asciiBytes "hi 42" := by decide

example : utf8LossyBytes [0xFF] = [0xEF, 0xBF, 0xBD] := by decide

example : utf8LossyBytes [0xE2, 0x82, 0xAC] = [0xE2, 0x82, 0xAC] := by decide

example : utf8LossyBytes [0xE2, 0x82] = [0xEF, 0xBF, 0xBD] := by decide

example : utf8LossyBytes [0xC0, 0xAF] = [0xEF, 0xBF, 0xBD, 0xEF, 0xBF, 0xBD] := by decide

example : utf8LossyBytes [0xF0, 0x9F, 0x92, 0x96, 0x21] = [0xF0, 0x9F, 0x92, 0x96, 0x21] := by
  decide

example : isUtf8 [0xED, 0xA0, 0x80] = false := by decide

/-! ## Observable events and session outcomes

The sessions are modelled as functions from their environment inputs
(received datagrams, stdin reads, send results) to the list of observable
actions they perform, paired with how the loop ends.  Infinite loops take
a fuel bound: exhausted fuel — like an empty input list on a blocking
receive — yields the `running` outcome (the loop has not terminated). -/

/-- An observable action of a session: socket setup, datagram I/O,
stdin reads, log lines, sleeps. -/
inductive Event where
  | bind (port : Nat)
  | join (group : IpAddr)
  | connect (dst : Endpoint)
  | recvFrom (payload : Bytes) (src : Endpoint)
  | sendTo (payload : Bytes) (dst : Endpoint)
  | send (payload : Bytes)
  | log (src : Endpoint) (text : Bytes)
  | readStdin (chunk : Bytes)
  | sleepMs (ms : Nat)
deriving DecidableEq

/-- Errors surfaced by `run` (`AppResult`): the `InvalidInput` rejection
with its message, or a propagated I/O error. -/
inductive AppError where
  | invalidInput (msg : Bytes)
  | ioError
deriving DecidableEq

/-- How a session loop ends: `ok` (`return Ok(())`), `fail` (an error
propagated by `?`, making the process exit 1), or `running` (the loop has
not terminated within the modelled fuel / inputs). -/
inductive Outcome where
  | ok
  | fail (e : AppError)
  | running
deriving DecidableEq

/-- `main`: exit code 0 on `Ok`, 1 on `Err`; none while still running. -/
def exitCode : Outcome → Option Nat
  | .ok => some 0
  | .fail _ => some 1
  | .running => none

/-- Result of one `recv_from` call offered by the environment. -/
inductive RecvResult where
  | ok (payload : Bytes) (src : Endpoint)
  | err
deriving DecidableEq

/-- Result of one `stdin.read` call offered by the environment. -/
inductive ReadResult where
  | chunk (data : Bytes)
  | err
deriving DecidableEq

/-- The fixed receive/read buffer capacity (`[0u8; 16384]`). -/
def bufCap : Nat := 16384

/-! ## ListenSession (`Command::Listen` loop body, main.rs lines 50-59) -/

/-- The reply `ListenSession` sends for a payload beginning with `PING`:
`format!("PONG{}", String::from_utf8_lossy(seqnum)).as_bytes()` where
`seqnum` is the payload after the 4-byte marker. -/
def pongReply (data : Bytes) : Bytes :=
  asciiBytes "PONG" ++ utf8LossyBytes (data.drop 4)

/-- The `listen` receive loop.  Each delivered datagram is truncated to the
16384-byte buffer; a `PING`-prefixed payload triggers a reply to the source;
every datagram is logged lossily.  A receive error propagates via `?`. -/
def listenLoop : Nat → List RecvResult → List Event × Outcome
  | 0, _ => ([], .running)
  | _ + 1, [] => ([], .running)
  | _ + 1, .err :: _ => ([], .fail .ioError)
  | fuel + 1, .ok raw src :: rest =>
    let data := raw.take bufCap
    let reply :=
      if (asciiBytes "PING").isPrefixOf data then [Event.sendTo (pongReply data) src]
      else []
    let next := listenLoop fuel rest
    (Event.recvFrom data src :: reply ++ Event.log src (utf8LossyBytes data) :: next.1,
     next.2)

/-! ## SendSession (`Command::Send` loop body, main.rs lines 69-80) -/

/-- The datagram transmitted for a nonempty chunk: drop one trailing
newline byte if present (`if let Some(&b'\n') = data.last()`), otherwise
send the chunk unchanged. -/
def chompChunk (c : Bytes) : Bytes :=
  if c.getLast? = some 10 then c.dropLast else c

/-- The `send` loop over stdin reads.  A read of zero bytes — or stdin
exhausted — returns `Ok(())`; otherwise the (≤ 16384-byte) chunk is
chomped and sent as one datagram.  A read error propagates via `?`. -/
def sendLoop : List ReadResult → List Event × Outcome
  | [] => ([], .ok)
  | .err :: _ => ([], .fail .ioError)
  | .chunk raw :: rest =>
    let c := raw.take bufCap
    if c = [] then ([], .ok)
    else
      let next := sendLoop rest
      (Event.readStdin c :: Event.send (chompChunk c) :: next.1, next.2)

/-! ## PingSession (`Command::Ping`, main.rs lines 82-101)

The sequence counter is a Rust `i32` (inferred for `let mut seqnum = 0`),
stored here as its two's-complement bit pattern in `[0, 2^32)` and
incremented modulo 2^32 (release-mode wrapping semantics); `format!`
displays its signed value. -/

/-- Decimal digits of a natural number, as ASCII bytes. -/
def natDecimalBytes (n : Nat) : Bytes :=
  (Nat.toDigits 10 n).map Char.toNat

/-- `format!("{}", i)` for a signed integer, as ASCII bytes. -/
def intDecimalBytes (i : Int) : Bytes :=
  if i < 0 then 0x2D :: natDecimalBytes i.natAbs else natDecimalBytes i.natAbs

/-- `seqnum += 1` on the i32 bit pattern. -/
def seqIncr (s : Nat) : Nat := (s + 1) % 4294967296

/-- The signed value an i32 bit pattern displays as. -/
def i32Val (s : Nat) : Int :=
  if s < 2147483648 then (s : Int) else (s : Int) - 4294967296

/-- Probe payload `format!("PING {}", seqnum).as_bytes()` for counter
state `s`. -/
def probeBytes (s : Nat) : Bytes :=
  asciiBytes "PING " ++ intDecimalBytes (i32Val s)

/-- The foreground sender loop: increment the counter, send the probe to
the multicast endpoint, sleep 250 ms, repeat.  `sendOks` injects the
result of each `send_to` (exhausted list = success); a failed send
propagates via `?` and the process exits. -/
def pingSender : Nat → Nat → Endpoint → List Bool → List Event × Outcome
  | 0, _, _, _ => ([], .running)
  | fuel + 1, seq, dst, oks =>
    let s := seqIncr seq
    if oks.headD true then
      let next := pingSender fuel s dst oks.tail
      (Event.sendTo (probeBytes s) dst :: Event.sleepMs 250 :: next.1, next.2)
    else ([], .fail .ioError)

/-- How the spawned receiver thread ends: still blocked/looping, or dead
because `recv_from(..).unwrap()` panicked (the panic unwinds only that
thread). -/
inductive TaskEnd where
  | running
  | dead
deriving DecidableEq

/-- The background receiver task: logs every datagram lossily and never
sends; on a receive error the `unwrap` panic kills this thread only. -/
def pingReceiver : Nat → List RecvResult → List Event × TaskEnd
  | 0, _ => ([], .running)
  | _ + 1, [] => ([], .running)
  | _ + 1, .err :: _ => ([], .dead)
  | fuel + 1, .ok raw src :: rest =>
    let data := raw.take bufCap
    let next := pingReceiver fuel rest
    (Event.recvFrom data src :: Event.log src (utf8LossyBytes data) :: next.1, next.2)

/-- The process-level outcome of `Command::Ping`: the receiver runs on a
`thread::spawn`ed thread, whose death (panic on a receive error) never
propagates to the process, so only the foreground sender loop decides the
outcome of `run`. -/
def pingOutcome (fuel : Nat) (dst : Endpoint) (recvs : List RecvResult)
    (sendOks : List Bool) : Outcome :=
  let rcv := pingReceiver fuel recvs
  (fun _ => (pingSender fuel 0 dst sendOks).2) rcv

/-! ## Address display and the multicast gate in `run` (main.rs lines 24-32) -/

/-- `Display` for `Ipv4Addr`: dotted decimal octets. -/
def ipv4DisplayBytes (a : Ipv4Addr) : Bytes :=
  natDecimalBytes a.o0 ++ [46] ++ natDecimalBytes a.o1 ++ [46] ++
    natDecimalBytes a.o2 ++ [46] ++ natDecimalBytes a.o3

/-- Lowercase hex digits of a 16-bit segment, no leading zeros. -/
def hexBytes (n : Nat) : Bytes :=
  (Nat.toDigits 16 n).map Char.toNat

/-- Hex segments joined with `:`. -/
def joinColonHex (segs : List Nat) : Bytes :=
  List.intercalate [58] (segs.map hexBytes)

/-- Start and length of the first longest run of zero segments. -/
def longestZeroRun (segs : List Nat) : Nat × Nat :=
  let step := fun (acc : Nat × Nat × Nat × Nat × Nat) (seg : Nat) =>
    let (i, curStart, curLen, bestStart, bestLen) := acc
    if seg = 0 then
      let start := if curLen = 0 then i else curStart
      let len := curLen + 1
      if bestLen < len then (i + 1, start, len, start, len)
      else (i + 1, start, len, bestStart, bestLen)
    else (i + 1, curStart, 0, bestStart, bestLen)
  let r := segs.foldl step (0, 0, 0, 0, 0)
  (r.2.2.2.1, r.2.2.2.2)

/-- The eight segments of an `Ipv6Addr`. -/
def Ipv6Addr.segments (a : Ipv6Addr) : List Nat :=
  [a.s0, a.s1, a.s2, a.s3, a.s4, a.s5, a.s6, a.s7]

/-- `Display` for `Ipv6Addr`, modelling the standard library's formatting:
`::` and `::1` special cases, IPv4-mapped addresses as `::ffff:a.b.c.d`,
otherwise hex segments with the first longest zero run (of length ≥ 2)
compressed to `::`. -/
def ipv6DisplayBytes (a : Ipv6Addr) : Bytes :=
  let segs := a.segments
  if segs = [0, 0, 0, 0, 0, 0, 0, 0] then asciiBytes "::"
  else if segs = [0, 0, 0, 0, 0, 0, 0, 1] then asciiBytes "::1"
  else if a.s0 = 0 ∧ a.s1 = 0 ∧ a.s2 = 0 ∧ a.s3 = 0 ∧ a.s4 = 0 ∧ a.s5 = 0xFFFF then
    asciiBytes "::ffff:" ++
      ipv4DisplayBytes ⟨a.s6 / 256, a.s6 % 256, a.s7 / 256, a.s7 % 256⟩
  else
    let z := longestZeroRun segs
    if 1 < z.2 then
      joinColonHex (segs.take z.1) ++ asciiBytes "::" ++
        joinColonHex (segs.drop (z.1 + z.2))
    else joinColonHex segs

/-- `Display` for `IpAddr`. -/
def ipDisplayBytes : IpAddr → Bytes
  | .V4 a => ipv4DisplayBytes a
  | .V6 a => ipv6DisplayBytes a

/-- The message of the `InvalidInput` error raised for a non-multicast
address: `format!("{} is not a multicast address", multiaddr)`. -/
def notMulticastMsg (addr : IpAddr) : Bytes :=
  ipDisplayBytes addr ++ asciiBytes " is not a multicast address"

/-- The three subcommands. -/
inductive Command where
  | listen
  | send
  | ping
deriving DecidableEq

/-- Environment inputs for one execution of `run`: delivered datagrams,
stdin reads, injected `send_to` results for the ping sender, and the fuel
bound for the infinite loops. -/
structure RunInput where
  recvs : List RecvResult
  stdinReads : List ReadResult
  sendOks : List Bool
  fuel : Nat

/-- `run`: the multicast check happens first; only on success does the
dispatch reach a session, which begins with its socket setup (bind, join
or connect) and then its loop.  For the ping command the trace lists the
foreground sender's events; the receiver thread's concurrent events are
given by `pingReceiver` and its outcome never reaches the process (see
`pingOutcome`).  The `Listening on ...` banner and bind/join failures are
not modelled; neither affects any event ordering below. -/
def run (cmd : Command) (multiaddr : IpAddr) (port : Nat) (inp : RunInput) :
    List Event × Outcome :=
  if multiaddr.is_multicast = false then
    ([], .fail (.invalidInput (notMulticastMsg multiaddr)))
  else
    match cmd with
    | .listen =>
      let body := listenLoop inp.fuel inp.recvs
      (Event.bind port :: Event.join multiaddr :: body.1, body.2)
    | .send =>
      let body := sendLoop inp.stdinReads
      (Event.bind 0 :: Event.connect ⟨multiaddr, port⟩ :: body.1, body.2)
    | .ping =>
      let sender := pingSender inp.fuel 0 ⟨multiaddr, port⟩ inp.sendOks
      (Event.bind 0 :: sender.1,
       pingOutcome inp.fuel ⟨multiaddr, port⟩ inp.recvs inp.sendOks)

/-- The payloads a list of events transmits (both `send_to` and `send`). -/
def sentPayloads (evs : List Event) : List Bytes :=
  evs.filterMap fun e =>
    match e with
    | .sendTo p _ => some p
    | .send p => some p
    | _ => none

/-- The probes the ping sender emits in `fuel` iterations (all sends
succeeding). -/
def sentProbes (fuel : Nat) (dst : Endpoint) : List Bytes :=
  sentPayloads (pingSender fuel 0 dst []).1

example : sentProbes 3 ⟨.V4 ⟨224, 0, 0, 1⟩, 4000⟩ =
    [asciiBytes "PING 1", asciiBytes "PING 2", asciiBytes "PING 3"] := by decide

example : ipv6DisplayBytes ⟨0x2001, 0xDB8, 0, 0, 0, 0, 0, 1⟩ =
    asciiBytes "2001:db8::1" := by decide

example : ipDisplayBytes (.V4 ⟨192, 168, 0, 1⟩) = asciiBytes "192.168.0.1" := by decide

/-! ## Helper lemmas -/

/-- Each step leaves no more input than it was given. -/
theorem utf8Step_remaining_le (b : Nat) (rest : Bytes) :
    (utf8Step b rest).remaining.length ≤ rest.length := by
  unfold utf8Step
  repeat' split
  all_goals simp_all
  all_goals omega

/-- Fuel irrelevance: any fuel at least the input length gives the same
decode. -/
theorem utf8LossyGo_congr :
    ∀ f g : Nat, ∀ l : Bytes, l.length ≤ f → l.length ≤ g →
      utf8LossyGo f l = utf8LossyGo g l := by
  intro f
  induction f with
  | zero =>
    intro g l hf _
    cases l with
    | nil => cases g <;> rfl
    | cons b rest => simp at hf
  | succ f ih =>
    intro g l hf hg
    cases l with
    | nil => cases g <;> rfl
    | cons b rest =>
      cases g with
      | zero => simp at hg
      | succ g =>
        simp only [utf8LossyGo]
        have hle := utf8Step_remaining_le b rest
        simp only [List.length_cons] at hf hg
        rw [ih g (utf8Step b rest).remaining (by omega) (by omega)]

/-- Unfolding of `utf8LossyBytes` by one step. -/
theorem utf8LossyBytes_cons (b : Nat) (rest : Bytes) :
    utf8LossyBytes (b :: rest) =
      (utf8Step b rest).emitted ++ utf8LossyBytes (utf8Step b rest).remaining := by
  show utf8LossyGo (b :: rest).length (b :: rest) = _
  simp only [List.length_cons, utf8LossyGo]
  rw [utf8LossyGo_congr rest.length (utf8Step b rest).remaining.length
    (utf8Step b rest).remaining (utf8Step_remaining_le b rest) le_rfl]
  rfl

/-- Fuel irrelevance for the validity check. -/
theorem isUtf8Go_congr :
    ∀ f g : Nat, ∀ l : Bytes, l.length ≤ f → l.length ≤ g →
      isUtf8Go f l = isUtf8Go g l := by
  intro f
  induction f with
  | zero =>
    intro g l hf _
    cases l with
    | nil => cases g <;> rfl
    | cons b rest => simp at hf
  | succ f ih =>
    intro g l hf hg
    cases l with
    | nil => cases g <;> rfl
    | cons b rest =>
      cases g with
      | zero => simp at hg
      | succ g =>
        simp only [isUtf8Go]
        have hle := utf8Step_remaining_le b rest
        simp only [List.length_cons] at hf hg
        rw [ih g (utf8Step b rest).remaining (by omega) (by omega)]

/-- Unfolding of `isUtf8` by one step. -/
theorem isUtf8_cons (b : Nat) (rest : Bytes) :
    isUtf8 (b :: rest) =
      ((utf8Step b rest).valid && isUtf8 (utf8Step b rest).remaining) := by
  show isUtf8Go (b :: rest).length (b :: rest) = _
  simp only [List.length_cons, isUtf8Go]
  rw [isUtf8Go_congr rest.length (utf8Step b rest).remaining.length
    (utf8Step b rest).remaining (utf8Step_remaining_le b rest) le_rfl]
  rfl

/-- A valid step emits exactly the bytes it consumed. -/
theorem utf8Step_valid_emitted (b : Nat) (rest : Bytes)
    (h : (utf8Step b rest).valid = true) :
    (utf8Step b rest).emitted ++ (utf8Step b rest).remaining = b :: rest := by
  unfold utf8Step at h ⊢
  repeat' split at h
  all_goals (repeat' split)
  all_goals simp_all

/-- On valid UTF-8 input the lossy decode copies every byte through. -/
theorem utf8LossyBytes_of_isUtf8 (l : Bytes) (h : isUtf8 l = true) :
    utf8LossyBytes l = l := by
  generalize hn : l.length = n
  induction n using Nat.strong_induction_on generalizing l with
  | _ n ih =>
    cases l with
    | nil => rfl
    | cons b rest =>
      rw [isUtf8_cons, Bool.and_eq_true] at h
      rw [utf8LossyBytes_cons]
      have hrem := utf8Step_remaining_le b rest
      have := ih (utf8Step b rest).remaining.length
        (by subst hn; simp only [List.length_cons]; omega)
        (utf8Step b rest).remaining h.2 rfl
      rw [this]
      exact utf8Step_valid_emitted b rest h.1

/-- Per step, the emitted bytes cost at most three per consumed byte. -/
theorem utf8Step_emitted_bound (b : Nat) (rest : Bytes) :
    (utf8Step b rest).emitted.length + 3 * (utf8Step b rest).remaining.length ≤
      3 * rest.length + 3 := by
  unfold utf8Step
  repeat' split
  all_goals simp_all [replacementBytes]
  all_goals omega

/-- The lossy decode expands the input by at most a factor of three. -/
theorem utf8LossyBytes_length_le (l : Bytes) :
    (utf8LossyBytes l).length ≤ 3 * l.length := by
  generalize hn : l.length = n
  induction n using Nat.strong_induction_on generalizing l with
  | _ n ih =>
    cases l with
    | nil => simp [utf8LossyBytes, utf8LossyGo]
    | cons b rest =>
      rw [utf8LossyBytes_cons]
      have hrem := utf8Step_remaining_le b rest
      have hrec := ih (utf8Step b rest).remaining.length
        (by subst hn; simp only [List.length_cons]; omega)
        (utf8Step b rest).remaining rfl
      have hstep := utf8Step_emitted_bound b rest
      subst hn
      simp only [List.length_append, List.length_cons]
      omega

/-- A run of 0xFF bytes decodes to one replacement character per byte. -/
theorem utf8LossyBytes_replicate_255 (n : Nat) :
    (utf8LossyBytes (List.replicate n 255)).length = 3 * n := by
  induction n with
  | zero => rfl
  | succ m ih =>
    rw [List.replicate_succ, utf8LossyBytes_cons]
    have hstep : utf8Step 255 (List.replicate m 255) =
        ⟨false, replacementBytes, List.replicate m 255⟩ := rfl
    rw [hstep]
    simp only [List.length_append, ih, replacementBytes, List.length_cons,
      List.length_nil]
    omega

/-- `sentPayloads` on the event lists the sessions build. -/
theorem sentPayloads_cons_sendTo (p : Bytes) (d : Endpoint) (evs : List Event) :
    sentPayloads (Event.sendTo p d :: evs) = p :: sentPayloads evs := by
  simp [sentPayloads]

theorem sentPayloads_cons_sleep (ms : Nat) (evs : List Event) :
    sentPayloads (Event.sleepMs ms :: evs) = sentPayloads evs := by
  simp [sentPayloads]

theorem sentPayloads_cons_recv (p : Bytes) (s : Endpoint) (evs : List Event) :
    sentPayloads (Event.recvFrom p s :: evs) = sentPayloads evs := by
  simp [sentPayloads]

theorem sentPayloads_cons_log (s : Endpoint) (t : Bytes) (evs : List Event) :
    sentPayloads (Event.log s t :: evs) = sentPayloads evs := by
  simp [sentPayloads]

/-- Probes emitted by `pingSender` from an arbitrary counter state:
the k-th (0-based) payload is the probe for state `(seq + (k+1)) % 2^32`. -/
theorem pingSender_probe_get (fuel seq k : Nat) (dst : Endpoint) :
    (sentPayloads (pingSender fuel seq dst []).1)[k]? =
      if k < fuel then some (probeBytes ((seq + (k + 1)) % 4294967296)) else none := by
  induction fuel generalizing seq k with
  | zero => simp [pingSender, sentPayloads]
  | succ f ih =>
    have hstep : pingSender (f + 1) seq dst [] =
        (Event.sendTo (probeBytes (seqIncr seq)) dst :: Event.sleepMs 250 ::
          (pingSender f (seqIncr seq) dst []).1,
         (pingSender f (seqIncr seq) dst []).2) := by
      simp [pingSender]
    rw [hstep]
    cases k with
    | zero => simp [sentPayloads_cons_sendTo, seqIncr]
    | succ j =>
      simp only [sentPayloads_cons_sendTo, sentPayloads_cons_sleep,
        List.getElem?_cons_succ]
      have harg : (seqIncr seq + (j + 1)) % 4294967296 =
          (seq + (j + 1 + 1)) % 4294967296 := by
        simp only [seqIncr]
        rw [Nat.mod_add_mod]
        congr 1
        omega
      rw [ih (seqIncr seq) j, harg]
      simp [Nat.succ_lt_succ_iff]

/-- The listen loop never returns `Ok`: it only blocks, loops, or fails. -/
theorem listenLoop_not_ok :
    ∀ fuel : Nat, ∀ recvs : List RecvResult,
      (listenLoop fuel recvs).2 ≠ Outcome.ok := by
  intro fuel
  induction fuel with
  | zero => intro recvs; simp [listenLoop]
  | succ f ih =>
    intro recvs
    cases recvs with
    | nil => simp [listenLoop]
    | cons r rest =>
      cases r with
      | err => simp [listenLoop]
      | ok raw src => simpa [listenLoop] using ih rest

/-- The ping sender loop never returns `Ok`. -/
theorem pingSender_not_ok :
    ∀ fuel seq : Nat, ∀ dst : Endpoint, ∀ oks : List Bool,
      (pingSender fuel seq dst oks).2 ≠ Outcome.ok := by
  intro fuel
  induction fuel with
  | zero => intro seq dst oks; simp [pingSender]
  | succ f ih =>
    intro seq dst oks
    cases oks with
    | nil => simpa [pingSender] using ih (seqIncr seq) dst []
    | cons o t =>
      cases o with
      | true => simpa [pingSender] using ih (seqIncr seq) dst t
      | false => simp [pingSender]

/-- Number of probes the ping sender emits with all sends succeeding. -/
theorem sentProbes_length (fuel : Nat) (dst : Endpoint) :
    (sentProbes fuel dst).length = fuel := by
  suffices h : ∀ f seq : Nat, (sentPayloads (pingSender f seq dst []).1).length = f by
    exact h fuel 0
  intro f
  induction f with
  | zero => intro seq; simp [pingSender, sentPayloads]
  | succ g ih =>
    intro seq
    have hstep : pingSender (g + 1) seq dst [] =
        (Event.sendTo (probeBytes (seqIncr seq)) dst :: Event.sleepMs 250 ::
          (pingSender g (seqIncr seq) dst []).1,
         (pingSender g (seqIncr seq) dst []).2) := by
      simp [pingSender]
    rw [hstep]
    simp only [sentPayloads_cons_sendTo, sentPayloads_cons_sleep, List.length_cons]
    rw [ih (seqIncr seq)]

/-- A concrete unicast peer used in witnesses. -/
def src0 : Endpoint := ⟨.V4 ⟨192, 168, 0, 7⟩, 34567⟩

/-- A concrete multicast destination used in witnesses. -/
def mcDst : Endpoint := ⟨.V4 ⟨224, 0, 0, 1⟩, 4000⟩

/-! ## Claim theorems -/

/-- Claim C5: for every valid non-multicast address, `run` fails with
`InvalidInput`, the message names the offending address, and no socket
operation (no event at all) has been attempted, whichever session was
requested. -/
theorem nonmulticast_rejected_before_sockets (cmd : Command) (addr : IpAddr)
    (port : Nat) (inp : RunInput) (h : addr.is_multicast = false) :
    run cmd addr port inp =
      ([], .fail (.invalidInput (notMulticastMsg addr))) ∧
    (ipDisplayBytes addr).isPrefixOf (notMulticastMsg addr) = true := by
  constructor
  · simp [run, h]
  · rw [ List.isPrefixOf_iff_prefix]
    exact List.prefix_append _ _

/-- Witness for C5 at the non-multicast address 192.168.0.1. -/
theorem nonmulticast_rejected_before_sockets_witness :
    run Command.listen (.V4 ⟨192, 168, 0, 1⟩) 9000 ⟨[], [], [], 5⟩ =
      ([], .fail (.invalidInput (notMulticastMsg (.V4 ⟨192, 168, 0, 1⟩)))) ∧
    (ipDisplayBytes (.V4 ⟨192, 168, 0, 1⟩)).isPrefixOf
      (notMulticastMsg (.V4 ⟨192, 168, 0, 1⟩)) = true :=
  nonmulticast_rejected_before_sockets Command.listen (.V4 ⟨192, 168, 0, 1⟩)
    9000 ⟨[], [], [], 5⟩ (by decide)

/-- Claim C6: a zero-byte stdin read ends the send session with `Ok`
(exit code 0) and transmits nothing, and no other command can ever
terminate cleanly. -/
theorem send_eof_clean_exit (raw : Bytes) (rest : List ReadResult) :
    sendLoop [] = ([], .ok) ∧
    (raw.take bufCap = [] → sendLoop (.chunk raw :: rest) = ([], .ok)) ∧
    exitCode .ok = some 0 ∧
    (∀ addr : IpAddr, ∀ port : Nat, ∀ inp : RunInput,
      addr.is_multicast = true → inp.stdinReads = .chunk [] :: rest →
        run .send addr port inp =
          ([Event.bind 0, Event.connect ⟨addr, port⟩], .ok)) ∧
    (∀ cmd : Command, ∀ addr : IpAddr, ∀ port : Nat, ∀ inp : RunInput,
      (run cmd addr port inp).2 = .ok → cmd = .send) := by
  refine ⟨rfl, ?_, rfl, ?_, ?_⟩
  · intro h
    simp [sendLoop, h]
  · intro addr port inp hm hr
    simp [run, hm, hr, sendLoop]
  · intro cmd addr port inp hok
    by_cases hm : addr.is_multicast = false
    · simp [run, hm] at hok
    · rw [Bool.not_eq_false] at hm
      cases cmd with
      | listen =>
        exfalso
        simp only [run, hm, Bool.true_eq_false, if_false] at hok
        exact listenLoop_not_ok inp.fuel inp.recvs hok
      | send => rfl
      | ping =>
        exfalso
        simp only [run, hm, Bool.true_eq_false, if_false, pingOutcome] at hok
        exact pingSender_not_ok inp.fuel 0 ⟨addr, port⟩ inp.sendOks hok

/-- Witness for C6: immediate end-of-input on the send command. -/
theorem send_eof_clean_exit_witness :
    sendLoop [ReadResult.chunk []] = ([], .ok) ∧
    run .send (.V4 ⟨224, 0, 0, 1⟩) 4000 ⟨[], [ReadResult.chunk []], [], 0⟩ =
      ([Event.bind 0, Event.connect ⟨.V4 ⟨224, 0, 0, 1⟩, 4000⟩], .ok) ∧
    Command.send = Command.send := by
  have h := send_eof_clean_exit [] []
  refine ⟨h.2.1 rfl, ?_, ?_⟩
  · exact h.2.2.2.1 (.V4 ⟨224, 0, 0, 1⟩) 4000 ⟨[], [ReadResult.chunk []], [], 0⟩
      (by decide) rfl
  · exact h.2.2.2.2 Command.send (.V4 ⟨224, 0, 0, 1⟩) 4000
      ⟨[], [ReadResult.chunk []], [], 0⟩
      (h.2.2.2.1 (.V4 ⟨224, 0, 0, 1⟩) 4000 ⟨[], [ReadResult.chunk []], [], 0⟩
        (by decide) rfl ▸ rfl)

/-- Claim C7: every datagram the listen session receives is logged with
its source and its lossy UTF-8 decoding — whether or not a reply was
sent — the decoding is total, and the session continues regardless of
the byte content. -/
theorem listen_always_logs (fuel : Nat) (raw : Bytes) (src : Endpoint)
    (rest : List RecvResult) :
    (listenLoop (fuel + 1) (.ok raw src :: rest)).1 =
      Event.recvFrom (raw.take bufCap) src ::
        (if (asciiBytes "PING").isPrefixOf (raw.take bufCap) then
          [Event.sendTo (pongReply (raw.take bufCap)) src]
        else []) ++
        Event.log src (utf8LossyBytes (raw.take bufCap)) ::
          (listenLoop fuel rest).1 ∧
    (listenLoop (fuel + 1) (.ok raw src :: rest)).2 = (listenLoop fuel rest).2 := by
  constructor <;> simp [listenLoop]

/-- Claim C10: the ping receiver task never transmits: its trace sends no
payload, and an incoming datagram — `PING`-prefixed or not — produces
exactly a receive observation and a lossy-decoded log line. -/
theorem ping_receiver_never_sends (fuel : Nat) (recvs : List RecvResult)
    (raw : Bytes) (src : Endpoint) (rest : List RecvResult) :
    sentPayloads (pingReceiver fuel recvs).1 = [] ∧
    (pingReceiver (fuel + 1) (.ok raw src :: rest)).1 =
      Event.recvFrom (raw.take bufCap) src ::
        Event.log src (utf8LossyBytes (raw.take bufCap)) ::
          (pingReceiver fuel rest).1 := by
  constructor
  · induction fuel generalizing recvs with
    | zero => simp [pingReceiver, sentPayloads]
    | succ f ih =>
      cases recvs with
      | nil => simp [pingReceiver, sentPayloads]
      | cons r rest' =>
        cases r with
        | err => simp [pingReceiver, sentPayloads]
        | ok raw' src' =>
          simp only [pingReceiver, sentPayloads_cons_recv, sentPayloads_cons_log]
          exact ih rest'
  · simp [pingReceiver]

/-- Claim C3: each nonempty stdin chunk yields exactly one transmitted
datagram: with a trailing newline exactly that one byte is dropped (the
sent bytes followed by the newline reconstitute the chunk — nothing else
is altered, no interior-newline splitting); otherwise the chunk is sent
unchanged. -/
theorem send_one_datagram_per_chunk (raw : Bytes) (rest : List ReadResult)
    (h : raw.take bufCap ≠ []) :
    (sendLoop (.chunk raw :: rest)).1 =
      Event.readStdin (raw.take bufCap) ::
        Event.send (chompChunk (raw.take bufCap)) :: (sendLoop rest).1 ∧
    ((raw.take bufCap).getLast? = some 10 →
      chompChunk (raw.take bufCap) ++ [10] = raw.take bufCap) ∧
    ((raw.take bufCap).getLast? ≠ some 10 →
      chompChunk (raw.take bufCap) = raw.take bufCap) := by
  refine ⟨?_, ?_, ?_⟩
  · simp [sendLoop, h]
  · intro hl
    rw [chompChunk, if_pos hl]
    exact List.dropLast_append_getLast? 10 hl
  · intro hl
    rw [chompChunk, if_neg hl]

/-- Witness for C3: `"hello\n"` is sent as `hello`, `"hello"` unchanged. -/
theorem send_one_datagram_per_chunk_witness :
    (sendLoop [.chunk (asciiBytes "hello\n")]).1 =
      [Event.readStdin (asciiBytes "hello\n"), Event.send (asciiBytes "hello")] ∧
    (sendLoop [.chunk (asciiBytes "hello")]).1 =
      [Event.readStdin (asciiBytes "hello"), Event.send (asciiBytes "hello")] := by
  have h1 := (send_one_datagram_per_chunk (asciiBytes "hello\n") [] (by decide)).1
  have h2 := (send_one_datagram_per_chunk (asciiBytes "hello") [] (by decide)).1
  rw [h1, h2]
  constructor <;> decide

/-- Claim C4: a received payload that does not begin with `PING` —
which includes every payload shorter than 4 bytes — produces only the
log observation: no reply (or any other transmission) is sent for it. -/
theorem listen_no_reply_without_ping (fuel : Nat) (raw : Bytes) (src : Endpoint)
    (rest : List RecvResult)
    (h : (asciiBytes "PING").isPrefixOf (raw.take bufCap) = false) :
    (listenLoop (fuel + 1) (.ok raw src :: rest)).1 =
      Event.recvFrom (raw.take bufCap) src ::
        Event.log src (utf8LossyBytes (raw.take bufCap)) ::
          (listenLoop fuel rest).1 ∧
    sentPayloads (listenLoop (fuel + 1) (.ok raw src :: rest)).1 =
      sentPayloads (listenLoop fuel rest).1 ∧
    (∀ data : Bytes, data.length < 4 →
      (asciiBytes "PING").isPrefixOf data = false) := by
  refine ⟨?_, ?_, ?_⟩
  · simp [listenLoop, h]
  · simp only [listenLoop, h, Bool.false_eq_true, if_false, List.nil_append,
      List.singleton_append, sentPayloads_cons_recv, sentPayloads_cons_log]
  · intro data hlen
    by_contra hc
    rw [Bool.not_eq_false, List.isPrefixOf_iff_prefix] at hc
    have := hc.length_le
    simp [asciiBytes] at this
    omega

/-- Witness for C4: the 5-byte payload `hello` and the 2-byte payload
`PI` (shorter than the marker) each get no reply. -/
theorem listen_no_reply_without_ping_witness :
    (listenLoop 1 [.ok (asciiBytes "hello") src0]).1 =
      [Event.recvFrom (asciiBytes "hello") src0,
       Event.log src0 (asciiBytes "hello")] ∧
    sentPayloads (listenLoop 1 [.ok (asciiBytes "PI") src0]).1 = [] := by
  have h1 := (listen_no_reply_without_ping 0 (asciiBytes "hello") src0 [] (by decide)).1
  have h2 := (listen_no_reply_without_ping 0 (asciiBytes "PI") src0 [] (by decide)).2.1
  rw [h1, h2]
  constructor <;> decide

/-- Claim C1 (amended): a payload whose first 4 bytes are `PING` is
answered to its source with `PONG` followed by the UTF-8 re-encoding of
the lossy decode of the trailing bytes — which is the trailing bytes
copied verbatim exactly when they are valid UTF-8. -/
theorem listen_pong_echoes_tail (fuel : Nat) (raw : Bytes) (src : Endpoint)
    (rest : List RecvResult)
    (h : (raw.take bufCap).take 4 = asciiBytes "PING") :
    (listenLoop (fuel + 1) (.ok raw src :: rest)).1 =
      Event.recvFrom (raw.take bufCap) src ::
        Event.sendTo
          (asciiBytes "PONG" ++ utf8LossyBytes ((raw.take bufCap).drop 4)) src ::
          Event.log src (utf8LossyBytes (raw.take bufCap)) ::
            (listenLoop fuel rest).1 ∧
    (isUtf8 ((raw.take bufCap).drop 4) = true →
      asciiBytes "PONG" ++ utf8LossyBytes ((raw.take bufCap).drop 4) =
        asciiBytes "PONG" ++ (raw.take bufCap).drop 4) := by
  have hpref : (asciiBytes "PING").isPrefixOf (raw.take bufCap) = true := by
    rw [ List.isPrefixOf_iff_prefix, ← h]
    exact List.take_prefix 4 _
  constructor
  · simp [listenLoop, hpref, pongReply]
  · intro hv
    rw [utf8LossyBytes_of_isUtf8 _ hv]

/-- Witness for the amended C1: `PING 42` is answered with `PONG 42`. -/
theorem listen_pong_echoes_tail_witness :
    (listenLoop 1 [.ok (asciiBytes "PING 42") src0]).1 =
      [Event.recvFrom (asciiBytes "PING 42") src0,
       Event.sendTo (asciiBytes "PONG 42") src0,
       Event.log src0 (asciiBytes "PING 42")] := by
  have h := listen_pong_echoes_tail 0 (asciiBytes "PING 42") src0 [] (by decide)
  rw [h.1]
  decide

/-- Counterexample to C1 as stated: the probe `PING` + 0xFF (a non-UTF-8
tail) is answered with `PONG` + EF BF BD (U+FFFD), not with the trailing
byte copied verbatim. -/
theorem listen_pong_not_verbatim :
    sentPayloads (listenLoop 1 [.ok (asciiBytes "PING" ++ [255]) src0]).1 =
      [asciiBytes "PONG" ++ [239, 191, 189]] ∧
    asciiBytes "PONG" ++ [239, 191, 189] ≠
      asciiBytes "PONG" ++ (asciiBytes "PING" ++ [255]).drop 4 := by
  decide

/-- Claim C2 (amended): the sequence counter starts at 0 and is
incremented once before each send, so the k-th probe sent is the text
`PING ` followed by decimal `k` — for every k from 1 up to i32::MAX
(2147483647); the counter is an i32 and wraps beyond that. -/
theorem ping_probe_sequence (fuel k : Nat) (dst : Endpoint)
    (h1 : 1 ≤ k) (h2 : k ≤ 2147483647) (h3 : k ≤ fuel) :
    (sentProbes fuel dst)[k - 1]? =
      some (asciiBytes "PING " ++ natDecimalBytes k) := by
  have h := pingSender_probe_get fuel 0 (k - 1) dst
  have hmod : (0 + (k - 1 + 1)) % 4294967296 = k := by omega
  unfold sentProbes
  rw [h, if_pos (by omega : k - 1 < fuel), hmod, probeBytes]
  have hval : i32Val k = (k : Int) := by
    rw [i32Val, if_pos (by omega : k < 2147483648)]
  rw [hval, intDecimalBytes,
    if_neg (by simp : ¬((k : Int) < 0)), Int.natAbs_ofNat]

/-- Witness for the amended C2: with three iterations the second probe is
`PING 2`. -/
theorem ping_probe_sequence_witness :
    (sentProbes 3 mcDst)[2 - 1]? =
      some (asciiBytes "PING " ++ natDecimalBytes 2) :=
  ping_probe_sequence 3 2 mcDst (by decide) (by decide) (by decide)

/-- Counterexample to C2 as stated: the 2147483648-th probe is
`PING -2147483648` — the i32 counter wraps to negative — not
`PING 2147483648` as an unsigned counter would give. -/
theorem ping_probe_wraps_negative :
    (sentProbes 2147483648 mcDst)[2147483648 - 1]? =
      some (asciiBytes "PING -2147483648") ∧
    asciiBytes "PING -2147483648" ≠ asciiBytes "PING 2147483648" := by
  constructor
  · have h := pingSender_probe_get 2147483648 0 2147483647 mcDst
    unfold sentProbes
    have hidx : (2147483648 - 1 : Nat) = 2147483647 := by norm_num
    rw [hidx, h, if_pos (by norm_num : (2147483647 : Nat) < 2147483648)]
    have hmod : (0 + (2147483647 + 1)) % 4294967296 = 2147483648 := by norm_num
    rw [hmod]
    exact congrArg some (by decide)
  · decide

/-- With every `send_to` succeeding the sender loop never stops by itself. -/
theorem pingSender_all_ok_running :
    ∀ fuel seq : Nat, ∀ dst : Endpoint,
      (pingSender fuel seq dst []).2 = Outcome.running := by
  intro fuel
  induction fuel with
  | zero => intro seq dst; rfl
  | succ f ih =>
    intro seq dst
    simpa [pingSender] using ih (seqIncr seq) dst

/-- After any number of successful receives, an erroring receive leaves
the receiver task dead. -/
theorem pingReceiver_dead_after_err :
    ∀ pre : List RecvResult, ∀ fuel : Nat, ∀ post : List RecvResult,
      (∀ r ∈ pre, r ≠ RecvResult.err) → pre.length < fuel →
      (pingReceiver fuel (pre ++ .err :: post)).2 = .dead := by
  intro pre
  induction pre with
  | nil =>
    intro fuel post _ hf
    obtain ⟨f, rfl⟩ : ∃ f, fuel = f + 1 := ⟨fuel - 1, by omega⟩
    simp [pingReceiver]
  | cons r pre' ih =>
    intro fuel post hok hf
    obtain ⟨f, rfl⟩ : ∃ f, fuel = f + 1 := ⟨fuel - 1, by omega⟩
    cases r with
    | err => exact absurd rfl (hok .err (by simp))
    | ok raw src =>
      simp only [List.cons_append, pingReceiver]
      exact ih f post (fun x hx => hok x (by simp [hx]))
        (by simpa using Nat.lt_of_succ_lt_succ hf)

/-- Claim C8: a receive error kills only the spawned receiver task — the
process outcome stays the foreground sender's, which keeps emitting one
probe per iteration indefinitely — while a send error in the sender loop
is fatal to the process, which exits with code 1. -/
theorem ping_error_asymmetry (fuel : Nat) (dst : Endpoint)
    (pre post : List RecvResult) (rest : List Bool)
    (hpre : ∀ r ∈ pre, r ≠ RecvResult.err) (hfuel : pre.length < fuel) :
    (pingReceiver fuel (pre ++ .err :: post)).2 = .dead ∧
    pingOutcome fuel dst (pre ++ .err :: post) [] = (pingSender fuel 0 dst []).2 ∧
    (pingSender fuel 0 dst []).2 = .running ∧
    (sentProbes fuel dst).length = fuel ∧
    (pingSender fuel 0 dst (false :: rest)).2 = .fail .ioError ∧
    exitCode (.fail .ioError) = some 1 := by
  refine ⟨pingReceiver_dead_after_err pre fuel post hpre hfuel, rfl,
    pingSender_all_ok_running fuel 0 dst, sentProbes_length fuel dst, ?_, rfl⟩
  obtain ⟨f, rfl⟩ : ∃ f, fuel = f + 1 := ⟨fuel - 1, by omega⟩
  simp [pingSender]

/-- Witness for C8: one good datagram, then a receive error; two sender
iterations. -/
theorem ping_error_asymmetry_witness :
    (pingReceiver 2 ([.ok (asciiBytes "hi") src0] ++ [.err])).2 = .dead ∧
    pingOutcome 2 mcDst ([.ok (asciiBytes "hi") src0] ++ [.err]) [] =
      (pingSender 2 0 mcDst []).2 ∧
    (pingSender 2 0 mcDst []).2 = .running ∧
    (sentProbes 2 mcDst).length = 2 ∧
    (pingSender 2 0 mcDst [false]).2 = .fail .ioError ∧
    exitCode (.fail .ioError) = some 1 := by
  have h := ping_error_asymmetry 2 mcDst [.ok (asciiBytes "hi") src0] [] []
    (by decide) (by decide)
  simpa using h

/-- Payloads delivered by `recv_from` in a trace. -/
def recvPayloads (evs : List Event) : List Bytes :=
  evs.filterMap fun e =>
    match e with
    | .recvFrom p _ => some p
    | _ => none

/-- Chunks read from stdin in a trace. -/
def readChunks (evs : List Event) : List Bytes :=
  evs.filterMap fun e =>
    match e with
    | .readStdin c => some c
    | _ => none

theorem recvPayloads_cons_recv (p : Bytes) (s : Endpoint) (evs : List Event) :
    recvPayloads (Event.recvFrom p s :: evs) = p :: recvPayloads evs := by
  simp [recvPayloads]

theorem recvPayloads_cons_log (s : Endpoint) (t : Bytes) (evs : List Event) :
    recvPayloads (Event.log s t :: evs) = recvPayloads evs := by
  simp [recvPayloads]

theorem recvPayloads_ite_sendTo (c : Prop) [Decidable c] (p : Bytes)
    (d : Endpoint) (evs : List Event) :
    recvPayloads ((if c then [Event.sendTo p d] else []) ++ evs) =
      recvPayloads evs := by
  split <;> simp [recvPayloads]

theorem sentPayloads_ite_sendTo (c : Prop) [Decidable c] (p : Bytes)
    (d : Endpoint) (evs : List Event) :
    sentPayloads ((if c then [Event.sendTo p d] else []) ++ evs) =
      (if c then [p] else []) ++ sentPayloads evs := by
  split <;> simp [sentPayloads]

/-- Unfolding of the listen loop trace on a delivered datagram. -/
theorem listenLoop_cons_ok_fst (fuel : Nat) (raw : Bytes) (src : Endpoint)
    (rest : List RecvResult) :
    (listenLoop (fuel + 1) (.ok raw src :: rest)).1 =
      Event.recvFrom (raw.take bufCap) src ::
        ((if (asciiBytes "PING").isPrefixOf (raw.take bufCap) then
          [Event.sendTo (pongReply (raw.take bufCap)) src]
        else []) ++
          (Event.log src (utf8LossyBytes (raw.take bufCap)) ::
            (listenLoop fuel rest).1)) := by
  simp [listenLoop]

/-- The reply to a ≤ 16384-byte payload is at most 4 + 3·16380 bytes. -/
theorem pongReply_length_le (data : Bytes) (h : data.length ≤ bufCap) :
    (pongReply data).length ≤ 49144 := by
  have h1 := utf8LossyBytes_length_le (data.drop 4)
  have h2 : (data.drop 4).length = data.length - 4 := List.length_drop 4 data
  have h3 : (asciiBytes "PONG").length = 4 := by decide
  have hb : bufCap = 16384 := rfl
  rw [pongReply]
  simp only [List.length_append, h3]
  omega

/-- Chomping never grows a chunk. -/
theorem chompChunk_length_le (c : Bytes) :
    (chompChunk c).length ≤ c.length := by
  rw [chompChunk]
  split
  · simp [List.length_dropLast]
  · exact le_rfl

/-- Every payload the listen loop receives fits the 16384-byte buffer. -/
theorem listen_recv_payload_le :
    ∀ fuel : Nat, ∀ recvs : List RecvResult,
      ∀ p ∈ recvPayloads (listenLoop fuel recvs).1, p.length ≤ bufCap := by
  intro fuel
  induction fuel with
  | zero => intro recvs p hp; simp [listenLoop, recvPayloads] at hp
  | succ f ih =>
    intro recvs p hp
    cases recvs with
    | nil => simp [listenLoop, recvPayloads] at hp
    | cons r rest =>
      cases r with
      | err => simp [listenLoop, recvPayloads] at hp
      | ok raw src =>
        rw [listenLoop_cons_ok_fst, recvPayloads_cons_recv] at hp
        rcases List.mem_cons.1 hp with hp | hp
        · subst hp; exact List.length_take_le _ _
        · rw [recvPayloads_ite_sendTo, recvPayloads_cons_log] at hp
          exact ih rest p hp

/-- Every payload the listen loop transmits is at most 49144 bytes. -/
theorem listen_sent_payload_le :
    ∀ fuel : Nat, ∀ recvs : List RecvResult,
      ∀ p ∈ sentPayloads (listenLoop fuel recvs).1, p.length ≤ 49144 := by
  intro fuel
  induction fuel with
  | zero => intro recvs p hp; simp [listenLoop, sentPayloads] at hp
  | succ f ih =>
    intro recvs p hp
    cases recvs with
    | nil => simp [listenLoop, sentPayloads] at hp
    | cons r rest =>
      cases r with
      | err => simp [listenLoop, sentPayloads] at hp
      | ok raw src =>
        rw [listenLoop_cons_ok_fst, sentPayloads_cons_recv,
          sentPayloads_ite_sendTo] at hp
        rcases List.mem_append.1 hp with hp | hp
        · have : p = pongReply (raw.take bufCap) := by
            by_cases hc : (asciiBytes "PING").isPrefixOf (raw.take bufCap) = true
            · simpa [hc] using hp
            · simp [hc] at hp
          subst this
          exact pongReply_length_le _ (List.length_take_le _ _)
        · rw [sentPayloads_cons_log] at hp
          exact ih rest p hp

/-- Every payload the ping receiver task gets fits the buffer. -/
theorem pingReceiver_recv_payload_le :
    ∀ fuel : Nat, ∀ recvs : List RecvResult,
      ∀ p ∈ recvPayloads (pingReceiver fuel recvs).1, p.length ≤ bufCap := by
  intro fuel
  induction fuel with
  | zero => intro recvs p hp; simp [pingReceiver, recvPayloads] at hp
  | succ f ih =>
    intro recvs p hp
    cases recvs with
    | nil => simp [pingReceiver, recvPayloads] at hp
    | cons r rest =>
      cases r with
      | err => simp [pingReceiver, recvPayloads] at hp
      | ok raw src =>
        simp only [pingReceiver, recvPayloads_cons_recv,
          recvPayloads_cons_log] at hp
        rcases List.mem_cons.1 hp with hp | hp
        · subst hp; exact List.length_take_le _ _
        · exact ih rest p hp

/-- Stdin chunks and transmitted datagrams in the send loop fit the
buffer. -/
theorem send_payload_le :
    ∀ reads : List ReadResult,
      (∀ c ∈ readChunks (sendLoop reads).1, c.length ≤ bufCap) ∧
      (∀ p ∈ sentPayloads (sendLoop reads).1, p.length ≤ bufCap) := by
  intro reads
  induction reads with
  | nil => constructor <;> (intro x hx; simp [sendLoop, readChunks, sentPayloads] at hx)
  | cons r rest ih =>
    cases r with
    | err =>
      constructor <;> (intro x hx; simp [sendLoop, readChunks, sentPayloads] at hx)
    | chunk raw =>
      by_cases hc : raw.take bufCap = []
      · constructor <;>
          (intro x hx; simp [sendLoop, hc, readChunks, sentPayloads] at hx)
      · have hstep : sendLoop (.chunk raw :: rest) =
            (Event.readStdin (raw.take bufCap) ::
              Event.send (chompChunk (raw.take bufCap)) :: (sendLoop rest).1,
             (sendLoop rest).2) := by
          simp [sendLoop, hc]
        constructor
        · intro c hcm
          rw [hstep] at hcm
          simp only [readChunks, List.filterMap_cons] at hcm
          rcases List.mem_cons.1 hcm with h | h
          · subst h; exact List.length_take_le _ _
          · exact ih.1 c h
        · intro p hpm
          rw [hstep] at hpm
          simp only [sentPayloads, List.filterMap_cons] at hpm
          rcases List.mem_cons.1 hpm with h | h
          · subst h
            exact le_trans (chompChunk_length_le _) (List.length_take_le _ _)
          · exact ih.2 p h

/-- Claim C9 (amended): every payload received by the listen loop or the
ping receiver, and every stdin chunk and transmitted datagram of the send
session, is at most 16384 bytes — an oversized datagram is truncated to
the buffer, the processed bytes being exactly the first `len` bytes, with
no error; a listen-session PONG reply, however, is only bounded by
4 + 3·16380 = 49144 bytes, because the lossy re-encoding of the echoed
tail can expand invalid bytes threefold. -/
theorem datagram_size_bounds (fuel : Nat) (recvs : List RecvResult)
    (reads : List ReadResult) (raw : Bytes) (src : Endpoint)
    (rest : List RecvResult) :
    (∀ p ∈ recvPayloads (listenLoop fuel recvs).1, p.length ≤ bufCap) ∧
    (∀ p ∈ recvPayloads (pingReceiver fuel recvs).1, p.length ≤ bufCap) ∧
    (∀ c ∈ readChunks (sendLoop reads).1, c.length ≤ bufCap) ∧
    (∀ p ∈ sentPayloads (sendLoop reads).1, p.length ≤ bufCap) ∧
    (∀ p ∈ sentPayloads (listenLoop fuel recvs).1, p.length ≤ 49144) ∧
    (listenLoop (fuel + 1) (.ok raw src :: rest)).1.head? =
      some (Event.recvFrom (raw.take bufCap) src) := by
  refine ⟨listen_recv_payload_le fuel recvs, pingReceiver_recv_payload_le fuel recvs,
    (send_payload_le reads).1, (send_payload_le reads).2,
    listen_sent_payload_le fuel recvs, ?_⟩
  rw [listenLoop_cons_ok_fst]
  rfl

/-- Witness for the amended C9 at a 2-byte datagram and a 3-byte chunk. -/
theorem datagram_size_bounds_witness :
    (asciiBytes "hi").length ≤ bufCap ∧ (asciiBytes "cat").length ≤ bufCap := by
  have h := datagram_size_bounds 1 [.ok (asciiBytes "hi") src0]
    [.chunk (asciiBytes "cat")] [] src0 []
  exact ⟨h.1 (asciiBytes "hi") (by decide), h.2.2.1 (asciiBytes "cat") (by decide)⟩

/-- A 16384-byte probe: `PING` followed by 16380 bytes of 0xFF. -/
def pingFlood : Bytes := asciiBytes "PING" ++ List.replicate 16380 255

/-- Counterexample to C9 as stated: the full-buffer probe `pingFlood`
makes the listen session send a 49144-byte reply — the echoed payload
exceeds the 16384-byte bound. -/
theorem listen_reply_exceeds_buffer :
    sentPayloads (listenLoop 1 [.ok pingFlood src0]).1 = [pongReply pingFlood] ∧
    (pongReply pingFlood).length = 49144 ∧
    ¬ (pongReply pingFlood).length ≤ 16384 := by
  have h4 : (asciiBytes "PING").length = 4 := by decide
  have hlen : pingFlood.length = 16384 := by
    rw [pingFlood, List.length_append, h4, List.length_replicate]
  have htake : pingFlood.take bufCap = pingFlood :=
    List.take_of_length_le (by rw [hlen, bufCap])
  have hpref : (asciiBytes "PING").isPrefixOf pingFlood = true := by
    rw [ List.isPrefixOf_iff_prefix, pingFlood]
    exact List.prefix_append _ _
  have hdrop : pingFlood.drop 4 = List.replicate 16380 255 := by
    rw [pingFlood, ← h4]
    exact List.drop_left _ _
  have hplen : (pongReply pingFlood).length = 49144 := by
    have h5 : (asciiBytes "PONG").length = 4 := by decide
    rw [pongReply, hdrop, List.length_append, h5, utf8LossyBytes_replicate_255]
  refine ⟨?_, hplen, by omega⟩
  have hstep := listenLoop_cons_ok_fst 0 pingFlood src0 []
  simp only [Nat.zero_add] at hstep
  rw [hstep, htake, sentPayloads_cons_recv, sentPayloads_ite_sendTo,
    if_pos hpref, sentPayloads_cons_log]
  simp [listenLoop, sentPayloads]

end Mccat
